import Mathlib

/-
  Verification of the patient-record registry with role-scoped authorization
  of the blockchain-eth hospital-management repository.

  The on-chain contract `HMSRecords` itself is not present in the repository
  snapshot; only its test-suite, deployment script, ABI declaration and
  off-chain callers are.  The registry below is therefore modelled from the
  specification (sections 3 and 4 of spec.md), faithful to its words, and
  the claims about the contract are settled against this model.  The
  off-chain backend handler (POST /api/medical-records of
  backend/server.js) is present in the repository and is embedded directly
  from its source further below.
-/

deriving instance DecidableEq for Except

namespace HMS

/-- Principals (callers) are opaque authenticated identities; modelled as
naturals standing for addresses. -/
abbrev Principal := Nat

/-- Content hashes and identity commitments are opaque 256-bit values;
modelled as naturals, with `0` as the zero value rejected by input
validation. -/
abbrev Hash := Nat

/-- Patient identifiers are externally supplied opaque strings. -/
abbrev PatientId := String

/-- Modelled from the spec: the three roles of the Role Registry
(spec.md section 3, "Role membership").  `superAdmin` is the bootstrap
principal's role (DEFAULT_ADMIN_ROLE in the ABI/tests), `admin` is
Administrator (ADMIN_ROLE), `doctor` is the global Doctor role. -/
inductive Role
  | superAdmin
  | admin
  | doctor
deriving DecidableEq, Repr

/-- Modelled from the spec: the error taxonomy of spec.md section 7. -/
inductive HMSError
  | InvalidInput
  | AlreadyRegistered
  | UnknownPatient
  | NotAuthorized
  | DuplicateRecord
  | LastAdminError
  | SystemPaused
deriving DecidableEq, Repr

/-- Modelled from the spec: a Patient Directory entry
(spec.md section 3, "Patient record"). -/
structure PatientRec where
  identityHash : Hash
  isActive : Bool
  registeredAt : Nat
  registeredBy : Principal
deriving DecidableEq, Repr

/-- Modelled from the spec: Record Ledger metadata for one medical record
(spec.md section 3, "Medical record"; field shape matches the tuple
returned by `getRecord` in the ABI). -/
structure RecordMeta where
  patientId : PatientId
  recordHash : Hash
  timestamp : Nat
  author : Principal
  recordType : String
  isActive : Bool
deriving DecidableEq, Repr

/-- Modelled from the spec: the structured events emitted by mutating
operations (spec.md section 6, "Event stream"; argument shapes follow the
ABI declarations and the test expectations). -/
inductive Event
  | PatientRegistered (patientId : PatientId) (identityHash : Hash)
      (registeredBy : Principal) (timestamp : Nat)
  | DoctorAuthorized (patientId : PatientId) (doctor : Principal)
      (grantedBy : Principal)
  | DoctorRevoked (patientId : PatientId) (doctor : Principal)
      (revokedBy : Principal)
  | RecordAdded (patientId : PatientId) (recordHash : Hash)
      (authorizedBy : Principal) (recordType : String) (timestamp : Nat)
  | RoleGranted (role : Role) (account : Principal) (sender : Principal)
  | RoleRevoked (role : Role) (account : Principal) (sender : Principal)
  | Paused (sender : Principal)
  | Unpaused (sender : Principal)
deriving DecidableEq, Repr

/-- Modelled from the spec: the authoritative registry state
(spec.md section 3).  Role membership is kept as one member list per role;
the Patient Directory, Authorization Graph, Record Ledger and per-patient
index are association lists; the counters and the circuit-breaker flag are
scalar fields; `events` is the append-only audit log. -/
structure HMSState where
  superAdmins : List Principal
  admins : List Principal
  doctors : List Principal
  patients : List (PatientId × PatientRec)
  authEdges : List ((PatientId × Principal) × Bool)
  records : List (Hash × RecordMeta)
  patientRecords : List (PatientId × List Hash)
  totalPatients : Nat
  totalRecords : Nat
  paused : Bool
  events : List Event
deriving DecidableEq, Repr

/-- First-match association-list lookup for the Patient Directory. -/
def lookupPatient : List (PatientId × PatientRec) → PatientId → Option PatientRec
  | [], _ => none
  | e :: rest, pid => if e.1 == pid then some e.2 else lookupPatient rest pid

/-- First-match association-list lookup for the Authorization Graph. -/
def lookupEdge : List ((PatientId × Principal) × Bool) → PatientId → Principal → Option Bool
  | [], _, _ => none
  | e :: rest, pid, d =>
      if e.1.1 == pid && e.1.2 == d then some e.2 else lookupEdge rest pid d

/-- First-match association-list lookup for the Record Ledger. -/
def lookupRecord : List (Hash × RecordMeta) → Hash → Option RecordMeta
  | [], _ => none
  | e :: rest, h => if e.1 == h then some e.2 else lookupRecord rest h

/-- Lookup of the per-patient record index; an absent patient has the
empty index. -/
def lookupIdx : List (PatientId × List Hash) → PatientId → List Hash
  | [], _ => []
  | e :: rest, pid => if e.1 == pid then e.2 else lookupIdx rest pid

/-- Modelled from the spec: `hasRole(role, principal)` of the Role Registry (spec.md section 4.1):
role-membership query. -/
def hasRole (s : HMSState) (r : Role) (p : Principal) : Bool :=
  match r with
  | .superAdmin => s.superAdmins.contains p
  | .admin => s.admins.contains p
  | .doctor => s.doctors.contains p

/-- Modelled from the spec: the caller class allowed to manage roles: Administrator or SuperAdmin
(spec.md section 4.1). -/
def isAdminOrSuper (s : HMSState) (p : Principal) : Bool :=
  hasRole s .admin p || hasRole s .superAdmin p

/-- Modelled from the spec: `isAuthorizedDoctor(patientId, doctorPrincipal)` (spec.md section 4.3):
pure read of the current authorization edge, false for absent edges. -/
def isAuthorizedDoctor (s : HMSState) (pid : PatientId) (d : Principal) : Bool :=
  match lookupEdge s.authEdges pid d with
  | some v => v
  | none => false

/-- Modelled from the spec: `getRecord`-style lookup used by the Verification Façade. -/
def findRecord (s : HMSState) (h : Hash) : Option RecordMeta :=
  lookupRecord s.records h

/-- Modelled from the spec: Patient Directory lookup. -/
def findPatient (s : HMSState) (pid : PatientId) : Option PatientRec :=
  lookupPatient s.patients pid

/-- Modelled from the spec: a patient exists and is active (the precondition shared by
`authorizeDoctor`, `revokeDoctor` and `addRecord`). -/
def patientActive (s : HMSState) (pid : PatientId) : Bool :=
  match findPatient s pid with
  | some p => p.isActive
  | none => false

/-- Modelled from the spec: `verifyRecord(recordHash)` (spec.md section 4.5): true iff a record
with that hash exists and `isActive == true`; false, never an error, for
unknown hashes. -/
def verifyRecord (s : HMSState) (h : Hash) : Bool :=
  match findRecord s h with
  | some r => r.isActive
  | none => false

/-- Modelled from the spec: `getPatientRecords(patientId)` (spec.md section 4.4): the full ordered
per-patient index. -/
def getPatientRecords (s : HMSState) (pid : PatientId) : List Hash :=
  lookupIdx s.patientRecords pid

/-- Modelled from the spec: `getTotalPatients()` (spec.md section 4.5). -/
def getTotalPatients (s : HMSState) : Nat :=
  s.totalPatients

/-- Modelled from the spec: `getTotalRecords()` (spec.md section 4.5). -/
def getTotalRecords (s : HMSState) : Nat :=
  s.totalRecords

/-- Idempotent insertion into a role member list (granting an already-held
role is a no-op, spec.md section 4.1). -/
def insertPrincipal (l : List Principal) (p : Principal) : List Principal :=
  if p ∈ l then l else p :: l

/-- Append a record hash at the end of a patient's index, creating the
index on first use. -/
def appendIdx : List (PatientId × List Hash) → PatientId → Hash → List (PatientId × List Hash)
  | [], pid, h => [(pid, [h])]
  | e :: rest, pid, h =>
      if e.1 == pid then (e.1, e.2 ++ [h]) :: rest else e :: appendIdx rest pid h

/-- Soft-delete of a patient: flip `isActive` to false, keep the entry. -/
def setPatientInactive (l : List (PatientId × PatientRec)) (pid : PatientId) :
    List (PatientId × PatientRec) :=
  l.map (fun e => if e.1 == pid then (e.1, { e.2 with isActive := false }) else e)

/-- Modelled from the spec: `registerPatient(patientId, identityHash)`
(spec.md section 4.2).  Pause-check first (section 4.6), then the
Administrator requirement, then once-only registration (`AlreadyRegistered`
if the identifier exists in any state), then input validation.  On success
the patient is created active, the counter is incremented and
`PatientRegistered` is emitted. -/
def registerPatient (s : HMSState) (caller : Principal) (pid : PatientId)
    (identityHash : Hash) (now : Nat) : Except HMSError HMSState :=
  if s.paused then .error .SystemPaused
  else if ¬ hasRole s .admin caller then .error .NotAuthorized
  else if (findPatient s pid).isSome then .error .AlreadyRegistered
  else if pid = "" ∨ identityHash = 0 then .error .InvalidInput
  else .ok { s with
    patients := (pid, ⟨identityHash, true, now, caller⟩) :: s.patients
    totalPatients := s.totalPatients + 1
    events := s.events ++ [.PatientRegistered pid identityHash caller now] }

/-- Modelled from the spec: `deactivatePatient(patientId)`
(spec.md section 4.2): Administrator-only soft delete. -/
def deactivatePatient (s : HMSState) (caller : Principal) (pid : PatientId) :
    Except HMSError HMSState :=
  if s.paused then .error .SystemPaused
  else if ¬ hasRole s .admin caller then .error .NotAuthorized
  else if (findPatient s pid).isNone then .error .UnknownPatient
  else .ok { s with patients := setPatientInactive s.patients pid }

/-- Modelled from the spec: `authorizeDoctor(patientId, doctorPrincipal)`
(spec.md section 4.3): Administrator-only; requires a registered, active
patient; sets the edge true and emits `DoctorAuthorized`. -/
def authorizeDoctor (s : HMSState) (caller : Principal) (pid : PatientId)
    (d : Principal) : Except HMSError HMSState :=
  if s.paused then .error .SystemPaused
  else if ¬ hasRole s .admin caller then .error .NotAuthorized
  else if ¬ patientActive s pid then .error .UnknownPatient
  else .ok { s with
    authEdges := ((pid, d), true) :: s.authEdges
    events := s.events ++ [.DoctorAuthorized pid d caller] }

/-- Modelled from the spec: `revokeDoctor(patientId, doctorPrincipal)`
(spec.md section 4.3): same caller requirement and patient precondition;
sets the edge false and emits `DoctorRevoked`. -/
def revokeDoctor (s : HMSState) (caller : Principal) (pid : PatientId)
    (d : Principal) : Except HMSError HMSState :=
  if s.paused then .error .SystemPaused
  else if ¬ hasRole s .admin caller then .error .NotAuthorized
  else if ¬ patientActive s pid then .error .UnknownPatient
  else .ok { s with
    authEdges := ((pid, d), false) :: s.authEdges
    events := s.events ++ [.DoctorRevoked pid d caller] }

/-- Modelled from the spec: `addRecord(patientId, recordHash, recordType)`
(spec.md section 4.4).  Pause-check first, then the per-patient
authorization edge (`NotAuthorized`), then the active-patient check
(`UnknownPatient`), then global hash uniqueness (`DuplicateRecord`).  On
success the record is stored active with the caller as author, the hash is
appended to the patient's index, `RecordAdded` is emitted and the record
counter is incremented. -/
def addRecord (s : HMSState) (caller : Principal) (pid : PatientId)
    (h : Hash) (recordType : String) (now : Nat) : Except HMSError HMSState :=
  if s.paused then .error .SystemPaused
  else if ¬ isAuthorizedDoctor s pid caller then .error .NotAuthorized
  else if ¬ patientActive s pid then .error .UnknownPatient
  else if (findRecord s h).isSome then .error .DuplicateRecord
  else .ok { s with
    records := (h, ⟨pid, h, now, caller, recordType, true⟩) :: s.records
    patientRecords := appendIdx s.patientRecords pid h
    totalRecords := s.totalRecords + 1
    events := s.events ++ [.RecordAdded pid h caller recordType now] }

/-- Modelled from the spec: `grantRole(role, principal)`
(spec.md section 4.1).  Pause-gated (role-granting is a mutator, section
3 "Circuit breaker state"); caller must be Administrator or SuperAdmin;
`SuperAdmin` has exactly one bootstrap principal and cannot be granted;
granting is idempotent but still emits its event. -/
def grantRole (s : HMSState) (caller : Principal) (r : Role) (target : Principal) :
    Except HMSError HMSState :=
  if s.paused then .error .SystemPaused
  else if ¬ isAdminOrSuper s caller then .error .NotAuthorized
  else match r with
  | .superAdmin => .error .NotAuthorized
  | .admin => .ok { s with
      admins := insertPrincipal s.admins target
      events := s.events ++ [.RoleGranted .admin target caller] }
  | .doctor => .ok { s with
      doctors := insertPrincipal s.doctors target
      events := s.events ++ [.RoleGranted .doctor target caller] }

/-- Modelled from the spec: `revokeRole(role, principal)`
(spec.md section 4.1).  Self-demotion is permitted, but a revocation of
the Administrator role that would leave zero Administrators fails with
`LastAdminError`; revoking an unheld role is a no-op that still emits its
event; `SuperAdmin` is never revocable through normal paths. -/
def revokeRole (s : HMSState) (caller : Principal) (r : Role) (target : Principal) :
    Except HMSError HMSState :=
  if s.paused then .error .SystemPaused
  else if ¬ isAdminOrSuper s caller then .error .NotAuthorized
  else match r with
  | .superAdmin => .error .NotAuthorized
  | .admin =>
      if target ∈ s.admins ∧ s.admins.filter (fun p => p != target) = []
      then .error .LastAdminError
      else .ok { s with
        admins := s.admins.filter (fun p => p != target)
        events := s.events ++ [.RoleRevoked .admin target caller] }
  | .doctor => .ok { s with
      doctors := s.doctors.filter (fun p => p != target)
      events := s.events ++ [.RoleRevoked .doctor target caller] }

/-- Modelled from the spec: `pause()` (spec.md section 4.6),
Administrator-only. -/
def pauseOp (s : HMSState) (caller : Principal) : Except HMSError HMSState :=
  if ¬ hasRole s .admin caller then .error .NotAuthorized
  else .ok { s with paused := true, events := s.events ++ [.Paused caller] }

/-- Modelled from the spec: `unpause()` (spec.md section 4.6),
Administrator-only. -/
def unpauseOp (s : HMSState) (caller : Principal) : Except HMSError HMSState :=
  if ¬ hasRole s .admin caller then .error .NotAuthorized
  else .ok { s with paused := false, events := s.events ++ [.Unpaused caller] }

/-- Modelled from the spec: the deployment state (spec.md section 3): the
deploying principal holds `SuperAdmin` and `Administrator` immediately
after initialization; everything else is empty, counters are zero and the
system is not paused. -/
def initialState (deployer : Principal) : HMSState :=
  { superAdmins := [deployer]
    admins := [deployer]
    doctors := []
    patients := []
    authEdges := []
    records := []
    patientRecords := []
    totalPatients := 0
    totalRecords := 0
    paused := false
    events := [] }

/-- One operation of the registry, tagged with its caller and, where the
ledger records a timestamp, the call time. -/
inductive Op
  | registerPatient (caller : Principal) (pid : PatientId) (identityHash : Hash) (now : Nat)
  | deactivatePatient (caller : Principal) (pid : PatientId)
  | authorizeDoctor (caller : Principal) (pid : PatientId) (d : Principal)
  | revokeDoctor (caller : Principal) (pid : PatientId) (d : Principal)
  | addRecord (caller : Principal) (pid : PatientId) (h : Hash) (recordType : String) (now : Nat)
  | grantRole (caller : Principal) (r : Role) (target : Principal)
  | revokeRole (caller : Principal) (r : Role) (target : Principal)
  | pause (caller : Principal)
  | unpause (caller : Principal)
deriving DecidableEq, Repr

/-- Dispatch one operation against the state. -/
def step (s : HMSState) : Op → Except HMSError HMSState
  | .registerPatient c pid ih now => registerPatient s c pid ih now
  | .deactivatePatient c pid => deactivatePatient s c pid
  | .authorizeDoctor c pid d => authorizeDoctor s c pid d
  | .revokeDoctor c pid d => revokeDoctor s c pid d
  | .addRecord c pid h t now => addRecord s c pid h t now
  | .grantRole c r t => grantRole s c r t
  | .revokeRole c r t => revokeRole s c r t
  | .pause c => pauseOp s c
  | .unpause c => unpauseOp s c

/-- Atomic execution: a failed call leaves the state unchanged
(spec.md section 3, "each of which enforces its invariants atomically"). -/
def exec (s : HMSState) (op : Op) : HMSState :=
  match step s op with
  | .ok s' => s'
  | .error _ => s

/-- Run a sequence of operations from a state. -/
def run (s : HMSState) (ops : List Op) : HMSState :=
  ops.foldl exec s

/-- Hashes of the successful `addRecord` calls of a run, in order. -/
def successfulAdds (s : HMSState) : List Op → List Hash
  | [] => []
  | op :: ops =>
      (match op, step s op with
       | .addRecord _ _ h _ _, .ok _ => [h]
       | _, _ => []) ++ successfulAdds (exec s op) ops

/-- Hashes of the successful `addRecord` calls of a run that target one
given patient, in order. -/
def successfulAddsFor (pid : PatientId) (s : HMSState) : List Op → List Hash
  | [] => []
  | op :: ops =>
      (match op, step s op with
       | .addRecord _ p h _ _, .ok _ => if p == pid then [h] else []
       | _, _ => []) ++ successfulAddsFor pid (exec s op) ops

/-- Number of successful `registerPatient` calls of a run. -/
def successfulRegCount (s : HMSState) : List Op → Nat
  | [] => 0
  | op :: ops =>
      (match op, step s op with
       | .registerPatient _ _ _ _, .ok _ => 1
       | _, _ => 0) + successfulRegCount (exec s op) ops

/-- Number of successful `addRecord` calls of a run. -/
def successfulAddCount (s : HMSState) : List Op → Nat
  | [] => 0
  | op :: ops =>
      (match op, step s op with
       | .addRecord _ _ _ _ _, .ok _ => 1
       | _, _ => 0) + successfulAddCount (exec s op) ops

end HMS

namespace Backend

/-
  Embedding of the off-chain backend handler POST /api/medical-records
  (src/project/hms/backend/server.js, lines 284-421).  The handler's
  external effects (the MongoDB save, the configuration lookup, the
  blockchainService.addMedicalRecord call, the in-memory lookups) are
  inputs to the embedded function; the function reproduces the handler's
  control flow over their outcomes.
-/

/-- Outcome of `blockchainService.addMedicalRecord`: a resolved result
with `success: true` (carrying recordHash and transactionHash), a resolved
result with `success: false`, or a rejected promise (an exception). -/
inductive BcOutcome
  | ok (recordHash : Nat) (txHash : Nat)
  | failed
  | threw
deriving DecidableEq, Repr

/-- The blockchain-related fields of the saved MedicalRecord document as
the handler leaves them; `blockchainStored` starts unset (false) and the
hash fields start absent. -/
structure StoredRecord where
  blockchainStored : Bool
  recordHash : Option Nat
  transactionHash : Option Nat
deriving DecidableEq, Repr

/-- The HTTP response of the handler: `created s r` is
`res.status(s).json(savedRecord)`, `respError s` is an error payload. -/
inductive HttpResult
  | created (status : Nat) (record : StoredRecord)
  | respError (status : Nat)
deriving DecidableEq, Repr

/-- A fresh MedicalRecord document before any blockchain interaction:
`blockchainStored` unset, no hashes. -/
def freshRecord : StoredRecord :=
  { blockchainStored := false, recordHash := none, transactionHash := none }

/-- server.js lines 284-421, POST /api/medical-records, for a request
whose `patientId` and `doctorId` are valid ObjectIds (so the handler stays
on the MongoDB path, lines 346-379).
`dbSaveOk` is whether `medicalRecord.save()` succeeds;
`contractConfigured` is whether `process.env.HMS_CONTRACT_ADDRESS` is set;
`bc` is the outcome of `blockchainService.addMedicalRecord`;
`patientInMemory` / `doctorInMemory` drive the in-memory fallback
validation (lines 386-413) taken when the MongoDB save throws. -/
def postMedicalRecord (dbSaveOk : Bool) (contractConfigured : Bool)
    (bc : BcOutcome) (patientInMemory : Bool) (doctorInMemory : Bool) :
    HttpResult :=
  if dbSaveOk then
    if contractConfigured then
      match bc with
      | .ok rh tx =>
          .created 201 { blockchainStored := true, recordHash := some rh,
                         transactionHash := some tx }
      | .failed => .created 201 freshRecord
      | .threw => .created 201 freshRecord
    else .created 201 freshRecord
  else
    if patientInMemory then
      if doctorInMemory then .created 201 freshRecord
      else .respError 400
    else .respError 400

end Backend

namespace HMS

theorem exec_of_ok {s s' : HMSState} {op : Op} (h : step s op = .ok s') :
    exec s op = s' := by
  simp [exec, h]

theorem exec_of_err {s : HMSState} {op : Op} {e : HMSError}
    (h : step s op = .error e) : exec s op = s := by
  simp [exec, h]

theorem step_ok_records {s s' : HMSState} {op : Op} (h : step s op = .ok s') :
    s'.records = s.records ∨
    (∃ c p hh t now, op = .addRecord c p hh t now ∧ s.paused = false ∧
       isAuthorizedDoctor s p c = true ∧ patientActive s p = true ∧
       findRecord s hh = none ∧
       s'.records = (hh, ⟨p, hh, now, c, t, true⟩) :: s.records) := by
  cases op
  all_goals
    simp only [step, registerPatient, deactivatePatient, authorizeDoctor, revokeDoctor,
      addRecord, grantRole, revokeRole, pauseOp, unpauseOp] at h
  all_goals repeat' split at h
  all_goals try cases h
  all_goals try (left; rfl)
  refine Or.inr ⟨_, _, _, _, _, rfl, ?_, ?_, ?_, ?_, rfl⟩ <;> simp_all

theorem step_ok_patients {s s' : HMSState} {op : Op} (h : step s op = .ok s') :
    s'.patients = s.patients ∨
    (∃ c p ih now, op = .registerPatient c p ih now ∧ findPatient s p = none ∧
       s'.patients = (p, ⟨ih, true, now, c⟩) :: s.patients) ∨
    (∃ c p, op = .deactivatePatient c p ∧
       s'.patients = setPatientInactive s.patients p) := by
  cases op
  all_goals
    simp only [step, registerPatient, deactivatePatient, authorizeDoctor, revokeDoctor,
      addRecord, grantRole, revokeRole, pauseOp, unpauseOp] at h
  all_goals repeat' split at h
  all_goals try cases h
  all_goals try (left; rfl)
  · refine Or.inr (Or.inl ⟨_, _, _, _, rfl, ?_, rfl⟩); simp_all
  · exact Or.inr (Or.inr ⟨_, _, rfl, rfl⟩)

theorem step_ok_authEdges {s s' : HMSState} {op : Op} (h : step s op = .ok s') :
    s'.authEdges = s.authEdges ∨
    (∃ c p d, op = .authorizeDoctor c p d ∧ patientActive s p = true ∧
       s'.authEdges = ((p, d), true) :: s.authEdges) ∨
    (∃ c p d, op = .revokeDoctor c p d ∧
       s'.authEdges = ((p, d), false) :: s.authEdges) := by
  cases op
  all_goals
    simp only [step, registerPatient, deactivatePatient, authorizeDoctor, revokeDoctor,
      addRecord, grantRole, revokeRole, pauseOp, unpauseOp] at h
  all_goals repeat' split at h
  all_goals try cases h
  all_goals try (left; rfl)
  · refine Or.inr (Or.inl ⟨_, _, _, rfl, ?_, rfl⟩); simp_all
  · exact Or.inr (Or.inr ⟨_, _, _, rfl, rfl⟩)

theorem step_ok_patientRecords {s s' : HMSState} {op : Op} (h : step s op = .ok s') :
    s'.patientRecords = s.patientRecords ∨
    (∃ c p hh t now, op = .addRecord c p hh t now ∧
       s'.patientRecords = appendIdx s.patientRecords p hh) := by
  cases op
  all_goals
    simp only [step, registerPatient, deactivatePatient, authorizeDoctor, revokeDoctor,
      addRecord, grantRole, revokeRole, pauseOp, unpauseOp] at h
  all_goals repeat' split at h
  all_goals try cases h
  all_goals try (left; rfl)
  exact Or.inr ⟨_, _, _, _, _, rfl, rfl⟩

theorem step_ok_admins {s s' : HMSState} {op : Op} (h : step s op = .ok s') :
    s'.admins = s.admins ∨
    (∃ c t, op = .grantRole c .admin t ∧
       s'.admins = insertPrincipal s.admins t) ∨
    (∃ c t, op = .revokeRole c .admin t ∧
       ¬(t ∈ s.admins ∧ s.admins.filter (fun p => p != t) = []) ∧
       s'.admins = s.admins.filter (fun p => p != t)) := by
  cases op
  all_goals
    simp only [step, registerPatient, deactivatePatient, authorizeDoctor, revokeDoctor,
      addRecord, grantRole, revokeRole, pauseOp, unpauseOp] at h
  all_goals repeat' split at h
  all_goals try cases h
  all_goals try (left; rfl)
  · exact Or.inr (Or.inl ⟨_, _, rfl, rfl⟩)
  · exact Or.inr (Or.inr ⟨_, _, rfl, by assumption, rfl⟩)

theorem step_ok_totalPatients {s s' : HMSState} {op : Op} (h : step s op = .ok s') :
    s'.totalPatients = s.totalPatients +
      (match op with | .registerPatient _ _ _ _ => 1 | _ => 0) := by
  cases op
  all_goals
    simp only [step, registerPatient, deactivatePatient, authorizeDoctor, revokeDoctor,
      addRecord, grantRole, revokeRole, pauseOp, unpauseOp] at h
  all_goals repeat' split at h
  all_goals try cases h
  all_goals simp_all

theorem step_ok_totalRecords {s s' : HMSState} {op : Op} (h : step s op = .ok s') :
    s'.totalRecords = s.totalRecords +
      (match op with | .addRecord _ _ _ _ _ => 1 | _ => 0) := by
  cases op
  all_goals
    simp only [step, registerPatient, deactivatePatient, authorizeDoctor, revokeDoctor,
      addRecord, grantRole, revokeRole, pauseOp, unpauseOp] at h
  all_goals repeat' split at h
  all_goals try cases h
  all_goals simp_all

theorem lookupPatient_cons_isSome {e : PatientId × PatientRec}
    {l : List (PatientId × PatientRec)} {q : PatientId}
    (h : (lookupPatient l q).isSome = true) :
    (lookupPatient (e :: l) q).isSome = true := by
  simp only [lookupPatient]
  split <;> simp_all

theorem lookupPatient_setInactive_isSome (l : List (PatientId × PatientRec))
    (pid q : PatientId) :
    (lookupPatient (setPatientInactive l pid) q).isSome = (lookupPatient l q).isSome := by
  induction l with
  | nil => rfl
  | cons e rest ih =>
      simp only [setPatientInactive, List.map, lookupPatient] at ih ⊢
      by_cases he : e.1 == q
      · by_cases hp : e.1 == pid <;> simp [he, hp]
      · by_cases hp : e.1 == pid <;> simp [he, hp] <;> simpa [setPatientInactive] using ih

theorem lookupIdx_appendIdx (l : List (PatientId × List Hash)) (pid : PatientId)
    (h : Hash) (q : PatientId) :
    lookupIdx (appendIdx l pid h) q =
      if pid == q then lookupIdx l q ++ [h] else lookupIdx l q := by
  induction l with
  | nil =>
      by_cases hq : pid = q <;> simp [appendIdx, lookupIdx, hq]
  | cons e rest ih =>
      obtain ⟨a, b⟩ := e
      by_cases hp : a = pid
      · subst hp
        by_cases hq : a = q
        · subst hq; simp [appendIdx, lookupIdx]
        · simp [appendIdx, lookupIdx, hq]
      · by_cases hq : a = q
        · subst hq
          have hpq : ¬(pid = a) := fun hc => hp hc.symm
          simp [appendIdx, lookupIdx, hp, hpq]
        · simp [appendIdx, lookupIdx, hp, hq, ih]

theorem filter_ne_of_not_mem {l : List Principal} {t : Principal} (h : t ∉ l) :
    l.filter (fun p => p != t) = l := by
  induction l with
  | nil => rfl
  | cons e rest ih =>
      simp only [List.mem_cons, not_or] at h
      have he : (e != t) = true := by
        simp only [bne_iff_ne, ne_eq]
        exact fun hc => h.1 hc.symm
      simp [List.filter_cons, he, ih h.2]

theorem step_findPatient_isSome {s s' : HMSState} {op : Op} {p : PatientId}
    (h : step s op = .ok s') (hp : (findPatient s p).isSome = true) :
    (findPatient s' p).isSome = true := by
  rcases step_ok_patients h with heq | ⟨c, q, ih, now, _, _, heq⟩ | ⟨c, q, _, heq⟩
  · simpa [findPatient, heq] using hp
  · simp only [findPatient, heq]
    exact lookupPatient_cons_isSome hp
  · simp only [findPatient, heq, lookupPatient_setInactive_isSome]
    exact hp

theorem exec_findPatient_isSome {s : HMSState} {op : Op} {p : PatientId}
    (hp : (findPatient s p).isSome = true) :
    (findPatient (exec s op) p).isSome = true := by
  cases hstep : step s op with
  | ok s' => rw [exec_of_ok hstep]; exact step_findPatient_isSome hstep hp
  | error e => rw [exec_of_err hstep]; exact hp

theorem run_findPatient_isSome {p : PatientId} :
    ∀ (ops : List Op) (s : HMSState), (findPatient s p).isSome = true →
      (findPatient (run s ops) p).isSome = true := by
  intro ops
  induction ops with
  | nil => intro s hp; exact hp
  | cons op rest ih =>
      intro s hp
      exact ih (exec s op) (exec_findPatient_isSome hp)

theorem patientActive_isSome {s : HMSState} {p : PatientId}
    (h : patientActive s p = true) : (findPatient s p).isSome = true := by
  unfold patientActive at h
  cases hfp : findPatient s p <;> simp [hfp] at h ⊢

theorem isAuthorizedDoctor_iff_lookup {s : HMSState} {p : PatientId} {d : Principal} :
    isAuthorizedDoctor s p d = true ↔ lookupEdge s.authEdges p d = some true := by
  unfold isAuthorizedDoctor
  cases he : lookupEdge s.authEdges p d with
  | none => simp
  | some v => simp

theorem lookupEdge_cons {q : PatientId} {e : Principal} {v : Bool}
    {E : List ((PatientId × Principal) × Bool)} {p : PatientId} {d : Principal} :
    lookupEdge (((q, e), v) :: E) p d =
      if q == p && e == d then some v else lookupEdge E p d := rfl

theorem registerPatient_ok_char {s s' : HMSState} {c : Principal} {pid : PatientId}
    {ih : Hash} {now : Nat} (h : step s (.registerPatient c pid ih now) = .ok s') :
    s.paused = false ∧ hasRole s .admin c = true ∧ findPatient s pid = none ∧
    pid ≠ "" ∧ ih ≠ 0 ∧
    s' = { s with patients := (pid, ⟨ih, true, now, c⟩) :: s.patients,
                  totalPatients := s.totalPatients + 1,
                  events := s.events ++ [.PatientRegistered pid ih c now] } := by
  simp only [step, registerPatient] at h
  repeat' split at h
  all_goals try cases h
  all_goals simp_all

theorem addRecord_ok_char {s s' : HMSState} {c : Principal} {pid : PatientId}
    {hh : Hash} {t : String} {now : Nat}
    (h : step s (.addRecord c pid hh t now) = .ok s') :
    s.paused = false ∧ isAuthorizedDoctor s pid c = true ∧
    patientActive s pid = true ∧ findRecord s hh = none ∧
    s' = { s with records := (hh, ⟨pid, hh, now, c, t, true⟩) :: s.records,
                  patientRecords := appendIdx s.patientRecords pid hh,
                  totalRecords := s.totalRecords + 1,
                  events := s.events ++ [.RecordAdded pid hh c t now] } := by
  simp only [step, addRecord] at h
  repeat' split at h
  all_goals try cases h
  all_goals simp_all

theorem authorizeDoctor_ok_char {s s' : HMSState} {c : Principal} {pid : PatientId}
    {d : Principal} (h : step s (.authorizeDoctor c pid d) = .ok s') :
    s.paused = false ∧ hasRole s .admin c = true ∧ patientActive s pid = true ∧
    s' = { s with authEdges := ((pid, d), true) :: s.authEdges,
                  events := s.events ++ [.DoctorAuthorized pid d c] } := by
  simp only [step, authorizeDoctor] at h
  repeat' split at h
  all_goals try cases h
  all_goals simp_all

theorem revokeDoctor_ok_char {s s' : HMSState} {c : Principal} {pid : PatientId}
    {d : Principal} (h : step s (.revokeDoctor c pid d) = .ok s') :
    s.paused = false ∧ hasRole s .admin c = true ∧ patientActive s pid = true ∧
    s' = { s with authEdges := ((pid, d), false) :: s.authEdges,
                  events := s.events ++ [.DoctorRevoked pid d c] } := by
  simp only [step, revokeDoctor] at h
  repeat' split at h
  all_goals try cases h
  all_goals simp_all

/-- The structural invariant behind C5's "false for unknown patients": an
authorization edge that reads true always points at a patient present in
the Patient Directory. -/
def edgeInv (s : HMSState) : Prop :=
  ∀ p d, isAuthorizedDoctor s p d = true → (findPatient s p).isSome = true

theorem step_edgeInv {s s' : HMSState} {op : Op} (h : step s op = .ok s')
    (hi : edgeInv s) : edgeInv s' := by
  intro p d hpd
  rw [isAuthorizedDoctor_iff_lookup] at hpd
  rcases step_ok_authEdges h with heq | ⟨c, q, e, hop, hact, heq⟩ | ⟨c, q, e, hop, heq⟩
  · rw [heq] at hpd
    exact step_findPatient_isSome h (hi p d (isAuthorizedDoctor_iff_lookup.mpr hpd))
  · rw [heq, lookupEdge_cons] at hpd
    by_cases hc : (q == p && e == d) = true
    · have hqp : q = p := by
        simp only [Bool.and_eq_true, beq_iff_eq] at hc
        exact hc.1
      subst hqp
      exact step_findPatient_isSome h (patientActive_isSome hact)
    · rw [if_neg hc] at hpd
      exact step_findPatient_isSome h (hi p d (isAuthorizedDoctor_iff_lookup.mpr hpd))
  · rw [heq, lookupEdge_cons] at hpd
    by_cases hc : (q == p && e == d) = true
    · rw [if_pos hc] at hpd
      simp at hpd
    · rw [if_neg hc] at hpd
      exact step_findPatient_isSome h (hi p d (isAuthorizedDoctor_iff_lookup.mpr hpd))

theorem exec_edgeInv {s : HMSState} {op : Op} (hi : edgeInv s) : edgeInv (exec s op) := by
  cases hstep : step s op with
  | ok s' => rw [exec_of_ok hstep]; exact step_edgeInv hstep hi
  | error e => rw [exec_of_err hstep]; exact hi

theorem run_edgeInv : ∀ (ops : List Op) (s : HMSState), edgeInv s → edgeInv (run s ops) := by
  intro ops
  induction ops with
  | nil => intro s hi; exact hi
  | cons op rest ih =>
      intro s hi
      exact ih (exec s op) (exec_edgeInv hi)

theorem initial_edgeInv (d : Principal) : edgeInv (initialState d) := by
  intro p q hpq
  simp [isAuthorizedDoctor, lookupEdge, initialState] at hpq

theorem run_totalPatients : ∀ (ops : List Op) (s : HMSState),
    (run s ops).totalPatients = s.totalPatients + successfulRegCount s ops := by
  intro ops
  induction ops with
  | nil => intro s; simp [run, successfulRegCount]
  | cons op rest ih =>
      intro s
      rw [show run s (op :: rest) = run (exec s op) rest from rfl, ih]
      rw [show successfulRegCount s (op :: rest) =
          (match op, step s op with
           | .registerPatient _ _ _ _, .ok _ => 1
           | _, _ => 0) + successfulRegCount (exec s op) rest from rfl]
      have hx : (exec s op).totalPatients = s.totalPatients +
          (match op, step s op with
           | .registerPatient _ _ _ _, .ok _ => 1
           | _, _ => 0) := by
        cases hstep : step s op with
        | error e =>
            rw [exec_of_err hstep]
            cases op <;> simp [hstep]
        | ok s' =>
            rw [exec_of_ok hstep]
            have hv := step_ok_totalPatients hstep
            cases op <;> simp [hstep] <;> simpa using hv
      omega

theorem run_totalRecords : ∀ (ops : List Op) (s : HMSState),
    (run s ops).totalRecords = s.totalRecords + successfulAddCount s ops := by
  intro ops
  induction ops with
  | nil => intro s; simp [run, successfulAddCount]
  | cons op rest ih =>
      intro s
      rw [show run s (op :: rest) = run (exec s op) rest from rfl, ih]
      rw [show successfulAddCount s (op :: rest) =
          (match op, step s op with
           | .addRecord _ _ _ _ _, .ok _ => 1
           | _, _ => 0) + successfulAddCount (exec s op) rest from rfl]
      have hx : (exec s op).totalRecords = s.totalRecords +
          (match op, step s op with
           | .addRecord _ _ _ _ _, .ok _ => 1
           | _, _ => 0) := by
        cases hstep : step s op with
        | error e =>
            rw [exec_of_err hstep]
            cases op <;> simp [hstep]
        | ok s' =>
            rw [exec_of_ok hstep]
            have hv := step_ok_totalRecords hstep
            cases op <;> simp [hstep] <;> simpa using hv
      omega

theorem verifyRecord_exec (s : HMSState) (op : Op) (h : Hash) :
    verifyRecord (exec s op) h = true ↔
      (h ∈ (match op, step s op with
            | .addRecord _ _ hh _ _, .ok _ => [hh]
            | _, _ => ([] : List Hash)) ∨ verifyRecord s h = true) := by
  cases hstep : step s op with
  | error e =>
      rw [exec_of_err hstep]
      cases op <;> simp [hstep]
  | ok s' =>
      rw [exec_of_ok hstep]
      cases op
      case addRecord c p hh t now =>
        obtain ⟨hp, hauth, hact, hnone, hs'⟩ := addRecord_ok_char hstep
        subst hs'
        by_cases hhh : hh = h
        · subst hhh
          simp [hstep, verifyRecord, findRecord, lookupRecord]
        · simp [hstep, verifyRecord, findRecord, lookupRecord, hhh, Ne.symm hhh]
      all_goals
        rcases step_ok_records hstep with heq | ⟨c', p', hh', t', now', hop, hrest⟩
      all_goals try simp at hop
      all_goals simp [hstep, verifyRecord, findRecord, heq]

theorem verifyRecord_run : ∀ (ops : List Op) (s : HMSState) (h : Hash),
    verifyRecord (run s ops) h = true ↔
      (h ∈ successfulAdds s ops ∨ verifyRecord s h = true) := by
  intro ops
  induction ops with
  | nil => intro s h; simp [run, successfulAdds]
  | cons op rest ih =>
      intro s h
      rw [show run s (op :: rest) = run (exec s op) rest from rfl, ih]
      rw [show successfulAdds s (op :: rest) =
          (match op, step s op with
           | .addRecord _ _ hh _ _, .ok _ => [hh]
           | _, _ => ([] : List Hash)) ++ successfulAdds (exec s op) rest from rfl]
      rw [List.mem_append]
      have hv := verifyRecord_exec s op h
      tauto

theorem getPatientRecords_exec (s : HMSState) (op : Op) (q : PatientId) :
    getPatientRecords (exec s op) q = getPatientRecords s q ++
      (match op, step s op with
       | .addRecord _ p hh _ _, .ok _ => if p == q then [hh] else []
       | _, _ => ([] : List Hash)) := by
  cases hstep : step s op with
  | error e =>
      rw [exec_of_err hstep]
      cases op <;> simp [hstep]
  | ok s' =>
      rw [exec_of_ok hstep]
      cases op
      case addRecord c p hh t now =>
        obtain ⟨hp, hauth, hact, hnone, hs'⟩ := addRecord_ok_char hstep
        have hpr : s'.patientRecords = appendIdx s.patientRecords p hh := by rw [hs']
        simp only [hstep, getPatientRecords, hpr]
        rw [lookupIdx_appendIdx]
        by_cases hpq : p = q <;> simp [hpq]
      all_goals
        rcases step_ok_patientRecords hstep with heq | ⟨c', p', hh', t', now', hop, hrest⟩
      all_goals try simp at hop
      all_goals simp [hstep, getPatientRecords, heq]

theorem getPatientRecords_run : ∀ (ops : List Op) (s : HMSState) (q : PatientId),
    getPatientRecords (run s ops) q =
      getPatientRecords s q ++ successfulAddsFor q s ops := by
  intro ops
  induction ops with
  | nil => intro s q; simp [run, successfulAddsFor]
  | cons op rest ih =>
      intro s q
      rw [show run s (op :: rest) = run (exec s op) rest from rfl, ih]
      rw [show successfulAddsFor q s (op :: rest) =
          (match op, step s op with
           | .addRecord _ p hh _ _, .ok _ => if p == q then [hh] else []
           | _, _ => ([] : List Hash)) ++ successfulAddsFor q (exec s op) rest from rfl]
      rw [getPatientRecords_exec, List.append_assoc]

theorem insertPrincipal_ne_nil {l : List Principal} {t : Principal} (h : l ≠ []) :
    insertPrincipal l t ≠ [] := by
  unfold insertPrincipal
  split <;> simp_all

theorem exec_admins_ne {s : HMSState} {op : Op} (h : s.admins ≠ []) :
    (exec s op).admins ≠ [] := by
  cases hstep : step s op with
  | error e => rw [exec_of_err hstep]; exact h
  | ok s' =>
      rw [exec_of_ok hstep]
      rcases step_ok_admins hstep with heq | ⟨c, t, _, heq⟩ | ⟨c, t, _, hlast, heq⟩
      · rw [heq]; exact h
      · rw [heq]; exact insertPrincipal_ne_nil h
      · rw [heq]
        by_cases hm : t ∈ s.admins
        · intro hc; exact hlast ⟨hm, hc⟩
        · rw [filter_ne_of_not_mem hm]; exact h

theorem run_admins_ne : ∀ (ops : List Op) (s : HMSState), s.admins ≠ [] →
    (run s ops).admins ≠ [] := by
  intro ops
  induction ops with
  | nil => intro s h; exact h
  | cons op rest ih =>
      intro s h
      exact ih (exec s op) (exec_admins_ne h)

/-- C1 (counterexample): the claim's clause "when c holds no authorization
edge for p, the call fails with NotAuthorized" is not true of every state:
in a paused state the very same unauthorized `addRecord` call fails with
`SystemPaused`, because the circuit-breaker check precedes the
authorization check (spec.md section 4.6). -/
theorem addRecord_paused_counterexample :
    isAuthorizedDoctor (run (initialState 0) [.pause 0]) "p1" 1 = false ∧
    step (run (initialState 0) [.pause 0]) (.addRecord 1 "p1" 5 "diagnosis" 3)
      = .error .SystemPaused ∧
    step (run (initialState 0) [.pause 0]) (.addRecord 1 "p1" 5 "diagnosis" 3)
      ≠ .error .NotAuthorized := by
  refine ⟨by decide, by decide, by decide⟩

/-- C1 (amended): `addRecord(p, h, t)` invoked by `c` succeeds only if
`isAuthorizedDoctor(p, c)` is true in that state; when `c` holds no
authorization edge for `p` the call never succeeds, and — provided the
system is not paused — it fails precisely with `NotAuthorized`, leaving
the state (in particular the record counter and the patient's record
index) unchanged. -/
theorem addRecord_requires_authorization (s : HMSState) (c : Principal)
    (p : PatientId) (h : Hash) (t : String) (now : Nat) :
    (∀ s', step s (.addRecord c p h t now) = .ok s' →
       isAuthorizedDoctor s p c = true)
    ∧ (isAuthorizedDoctor s p c = false →
        (∀ s', step s (.addRecord c p h t now) ≠ .ok s')
        ∧ (s.paused = false →
            step s (.addRecord c p h t now) = .error .NotAuthorized
            ∧ exec s (.addRecord c p h t now) = s)) := by
  constructor
  · intro s' hs
    exact (addRecord_ok_char hs).2.1
  · intro hauth
    constructor
    · intro s' hs
      rw [(addRecord_ok_char hs).2.1] at hauth
      cases hauth
    · intro hp
      have hstep : step s (.addRecord c p h t now) = .error .NotAuthorized := by
        simp [step, addRecord, hp, hauth]
      exact ⟨hstep, exec_of_err hstep⟩

/-- C1 (witness): at the deployment state, caller 1 holds no edge for
"p1", the call fails with `NotAuthorized` and the state is unchanged. -/
theorem addRecord_requires_authorization_witness :
    step (initialState 0) (.addRecord 1 "p1" 5 "diagnosis" 10)
      = .error .NotAuthorized ∧
    exec (initialState 0) (.addRecord 1 "p1" 5 "diagnosis" 10) = initialState 0 :=
  ((addRecord_requires_authorization (initialState 0) 1 "p1" 5 "diagnosis" 10).2
    (by decide)).2 (by decide)

/-- C2: `verifyRecord(h)` over any run from deployment is true exactly
when some successful `addRecord` of the run used `h` (so it is false while
no successful call has used `h`); it is true in the state immediately
after a successful `addRecord(p, h, t)`; and in any state it is true iff a
record keyed by `h` exists with `isActive = true`. -/
theorem verifyRecord_iff_successful_add (d : Principal) (ops : List Op) (h : Hash) :
    (verifyRecord (run (initialState d) ops) h = true ↔
       h ∈ successfulAdds (initialState d) ops)
    ∧ (∀ (s : HMSState) (c : Principal) (p : PatientId) (t : String) (now : Nat)
         (s' : HMSState), step s (.addRecord c p h t now) = .ok s' →
         verifyRecord s' h = true)
    ∧ (∀ s : HMSState, verifyRecord s h = true ↔
         ∃ r, findRecord s h = some r ∧ r.isActive = true) := by
  refine ⟨?_, ?_, ?_⟩
  · rw [verifyRecord_run]
    have hinit : verifyRecord (initialState d) h = false := by
      simp [verifyRecord, findRecord, lookupRecord, initialState]
    simp [hinit]
  · intro s c p t now s' hs
    obtain ⟨_, _, _, _, hs'⟩ := addRecord_ok_char hs
    have hr : s'.records = (h, ⟨p, h, now, c, t, true⟩) :: s.records := by rw [hs']
    simp [verifyRecord, findRecord, hr, lookupRecord]
  · intro s
    unfold verifyRecord
    cases hfr : findRecord s h with
    | none => simp
    | some r => simp

/-- C2 (witness): after a run that registers "p1", authorizes doctor 7 and
has 7 add the record with hash 5, `verifyRecord 5` is true. -/
theorem verifyRecord_iff_successful_add_witness :
    verifyRecord (run (initialState 0) [.registerPatient 0 "p1" 1 0,
      .authorizeDoctor 0 "p1" 7, .addRecord 7 "p1" 5 "diagnosis" 2]) 5 = true :=
  ((verifyRecord_iff_successful_add 0 [.registerPatient 0 "p1" 1 0,
      .authorizeDoctor 0 "p1" 7, .addRecord 7 "p1" 5 "diagnosis" 2] 5).1).mpr
    (by decide)

/-- C3: after a successful `registerPatient(p, h)` and any further
sequence of operations (which may include deactivating `p`), a second
`registerPatient(p, h')` never succeeds, whatever `h'`; and whenever that
second call is not otherwise pre-empted (system not paused, caller an
Administrator) it fails precisely with `AlreadyRegistered` — so `p` can be
registered at most once over the lifetime of the system. -/
theorem registerPatient_once_only (s0 s1 : HMSState) (c0 : Principal)
    (p : PatientId) (h0 : Hash) (now0 : Nat) (ops : List Op)
    (hfirst : step s0 (.registerPatient c0 p h0 now0) = .ok s1) :
    (∀ (c : Principal) (h' : Hash) (now : Nat) (s' : HMSState),
       step (run s1 ops) (.registerPatient c p h' now) ≠ .ok s')
    ∧ (∀ (c : Principal) (h' : Hash) (now : Nat),
       (run s1 ops).paused = false → hasRole (run s1 ops) .admin c = true →
       step (run s1 ops) (.registerPatient c p h' now)
         = .error .AlreadyRegistered) := by
  have hreg1 : (findPatient s1 p).isSome = true := by
    obtain ⟨_, _, _, _, _, hs1⟩ := registerPatient_ok_char hfirst
    have hp1 : s1.patients = (p, ⟨h0, true, now0, c0⟩) :: s0.patients := by rw [hs1]
    simp [findPatient, hp1, lookupPatient]
  have hpers := run_findPatient_isSome ops s1 hreg1
  constructor
  · intro c h' now s' hs
    obtain ⟨_, _, hnone, _⟩ := registerPatient_ok_char hs
    rw [hnone] at hpers
    cases hpers
  · intro c h' now hp hc
    simp [step, registerPatient, hp, hc, hpers]

/-- C3 (witness): register "p1", deactivate it, then a second registration
with a different identity hash still fails with `AlreadyRegistered`. -/
theorem registerPatient_once_only_witness :
    step (run (exec (initialState 0) (.registerPatient 0 "p1" 1 0))
        [.deactivatePatient 0 "p1"]) (.registerPatient 0 "p1" 9 5)
      = .error .AlreadyRegistered :=
  (registerPatient_once_only (initialState 0)
      (exec (initialState 0) (.registerPatient 0 "p1" 1 0)) 0 "p1" 1 0
      [.deactivatePatient 0 "p1"] (by decide)).2 0 9 5 (by decide) (by decide)

/-- C4: while paused, `registerPatient`, `authorizeDoctor` and `addRecord`
fail with `SystemPaused` with no other precondition evaluated (no
hypothesis on the caller or the arguments is needed); the read-only
`verifyRecord` and `getPatientRecords` are insensitive to the pause flag;
and after an `unpause` the identical `registerPatient` call succeeds and
appends the `PatientRegistered` event. -/
theorem paused_blocks_mutators (s : HMSState) (hp : s.paused = true) :
    (∀ (c : Principal) (p : PatientId) (ih : Hash) (now : Nat),
       step s (.registerPatient c p ih now) = .error .SystemPaused)
    ∧ (∀ (c : Principal) (p : PatientId) (d : Principal),
       step s (.authorizeDoctor c p d) = .error .SystemPaused)
    ∧ (∀ (c : Principal) (p : PatientId) (h : Hash) (t : String) (now : Nat),
       step s (.addRecord c p h t now) = .error .SystemPaused)
    ∧ (∀ h : Hash, verifyRecord s h = verifyRecord { s with paused := false } h)
    ∧ (∀ p : PatientId,
       getPatientRecords s p = getPatientRecords { s with paused := false } p)
    ∧ (∀ (a : Principal) (s₁ : HMSState) (c : Principal) (p : PatientId)
         (ih : Hash) (now : Nat), step s (.unpause a) = .ok s₁ →
       hasRole s₁ .admin c = true → findPatient s₁ p = none →
       p ≠ "" → ih ≠ 0 →
       ∃ s₂, step s₁ (.registerPatient c p ih now) = .ok s₂ ∧
         s₂.events = s₁.events ++ [.PatientRegistered p ih c now]) := by
  refine ⟨?_, ?_, ?_, ?_, ?_, ?_⟩
  · intro c p ih now; simp [step, registerPatient, hp]
  · intro c p d; simp [step, authorizeDoctor, hp]
  · intro c p h t now; simp [step, addRecord, hp]
  · intro h; rfl
  · intro p; rfl
  · intro a s₁ c p ih now hs1 hc hnone hpne hihne
    have hp1 : s₁.paused = false := by
      simp only [step, unpauseOp] at hs1
      split at hs1
      · cases hs1
      · cases hs1; rfl
    have hstep : step s₁ (.registerPatient c p ih now) = .ok { s₁ with
        patients := (p, ⟨ih, true, now, c⟩) :: s₁.patients
        totalPatients := s₁.totalPatients + 1
        events := s₁.events ++ [.PatientRegistered p ih c now] } := by
      simp [step, registerPatient, hp1, hc, hnone, hpne, hihne]
    exact ⟨_, hstep, rfl⟩

/-- C4 (witness): pausing at deployment makes `registerPatient("p2", 4)`
fail with `SystemPaused`; after `unpause` the identical call succeeds and
emits `PatientRegistered`. -/
theorem paused_blocks_mutators_witness :
    step (exec (initialState 0) (.pause 0)) (.registerPatient 0 "p2" 4 1)
      = .error .SystemPaused ∧
    (∃ s₂, step (exec (exec (initialState 0) (.pause 0)) (.unpause 0))
        (.registerPatient 0 "p2" 4 1) = .ok s₂ ∧
      s₂.events = (exec (exec (initialState 0) (.pause 0)) (.unpause 0)).events
        ++ [.PatientRegistered "p2" 4 0 1]) :=
  ⟨(paused_blocks_mutators (exec (initialState 0) (.pause 0)) (by decide)).1 0 "p2" 4 1,
   (paused_blocks_mutators (exec (initialState 0) (.pause 0)) (by decide)).2.2.2.2.2
     0 (exec (exec (initialState 0) (.pause 0)) (.unpause 0)) 0 "p2" 4 1
     (by decide) (by decide) (by decide) (by decide) (by decide)⟩

/-- C5: a successful `authorizeDoctor(p, d)` makes `isAuthorizedDoctor(p, d)`
true, a subsequent successful `revokeDoctor(p, d)` makes it false, and in
any state reachable from deployment `isAuthorizedDoctor` returns false
(not an error) for patients absent from the Patient Directory. -/
theorem authorize_revoke_edge_semantics (s : HMSState) (c : Principal)
    (p : PatientId) (d : Principal) :
    (∀ s', step s (.authorizeDoctor c p d) = .ok s' →
       isAuthorizedDoctor s' p d = true)
    ∧ (∀ s', step s (.revokeDoctor c p d) = .ok s' →
       isAuthorizedDoctor s' p d = false)
    ∧ (∀ (dep : Principal) (ops : List Op) (q : PatientId) (e : Principal),
       findPatient (run (initialState dep) ops) q = none →
       isAuthorizedDoctor (run (initialState dep) ops) q e = false) := by
  refine ⟨?_, ?_, ?_⟩
  · intro s' hs
    obtain ⟨_, _, _, hs'⟩ := authorizeDoctor_ok_char hs
    have he : s'.authEdges = ((p, d), true) :: s.authEdges := by rw [hs']
    simp [isAuthorizedDoctor, he, lookupEdge]
  · intro s' hs
    obtain ⟨_, _, _, hs'⟩ := revokeDoctor_ok_char hs
    have he : s'.authEdges = ((p, d), false) :: s.authEdges := by rw [hs']
    simp [isAuthorizedDoctor, he, lookupEdge]
  · intro dep ops q e hnone
    by_contra hc
    have htrue : isAuthorizedDoctor (run (initialState dep) ops) q e = true := by
      cases hval : isAuthorizedDoctor (run (initialState dep) ops) q e
      · exact absurd hval hc
      · rfl
    have hsome := run_edgeInv ops (initialState dep) (initial_edgeInv dep) q e htrue
    rw [hnone] at hsome
    cases hsome

/-- C5 (witness): authorize then query gives true; revoke then query gives
false; for the never-registered "zz" the query is false. -/
theorem authorize_revoke_edge_semantics_witness :
    isAuthorizedDoctor (exec (run (initialState 0) [.registerPatient 0 "p1" 1 0])
      (.authorizeDoctor 0 "p1" 7)) "p1" 7 = true ∧
    isAuthorizedDoctor (exec (run (initialState 0) [.registerPatient 0 "p1" 1 0,
      .authorizeDoctor 0 "p1" 7]) (.revokeDoctor 0 "p1" 7)) "p1" 7 = false ∧
    isAuthorizedDoctor (run (initialState 0) [.registerPatient 0 "p1" 1 0]) "zz" 7
      = false :=
  ⟨(authorize_revoke_edge_semantics (run (initialState 0)
      [.registerPatient 0 "p1" 1 0]) 0 "p1" 7).1 _ (by decide),
   (authorize_revoke_edge_semantics (run (initialState 0)
      [.registerPatient 0 "p1" 1 0, .authorizeDoctor 0 "p1" 7]) 0 "p1" 7).2.1 _
      (by decide),
   (authorize_revoke_edge_semantics (initialState 0) 0 "p1" 7).2.2 0
      [.registerPatient 0 "p1" 1 0] "zz" 7 (by decide)⟩

/-- C6: over any run from deployment, `getTotalPatients()` equals the
number of successful `registerPatient` calls and `getTotalRecords()` the
number of successful `addRecord` calls; both counters start at 0. -/
theorem counters_match_successful_calls (d : Principal) (ops : List Op) :
    getTotalPatients (run (initialState d) ops)
      = successfulRegCount (initialState d) ops
    ∧ getTotalRecords (run (initialState d) ops)
      = successfulAddCount (initialState d) ops
    ∧ getTotalPatients (initialState d) = 0
    ∧ getTotalRecords (initialState d) = 0 := by
  refine ⟨?_, ?_, rfl, rfl⟩
  · rw [getTotalPatients, run_totalPatients]
    simp [initialState]
  · rw [getTotalRecords, run_totalRecords]
    simp [initialState]

/-- C7: over any run from deployment, `getPatientRecords(p)` is exactly
the sequence of hashes of the successful `addRecord` calls for `p`, in
call order; and every single operation leaves the previous index as a
prefix (the index is append-only — nothing is ever removed or
reordered, deactivation included). -/
theorem patient_index_append_only (d : Principal) (ops : List Op) (p : PatientId) :
    getPatientRecords (run (initialState d) ops) p
      = successfulAddsFor p (initialState d) ops
    ∧ (∀ (s : HMSState) (op : Op), ∃ t,
       getPatientRecords (exec s op) p = getPatientRecords s p ++ t) := by
  constructor
  · rw [getPatientRecords_run]
    simp [getPatientRecords, initialState, lookupIdx]
  · intro s op
    exact ⟨_, getPatientRecords_exec s op p⟩

/-- C8: immediately after deployment the deploying principal holds both
the SuperAdmin role (DEFAULT_ADMIN_ROLE) and the Administrator role
(ADMIN_ROLE), with no grant call having run. -/
theorem deployer_initial_roles (d : Principal) :
    hasRole (initialState d) .superAdmin d = true ∧
    hasRole (initialState d) .admin d = true := by
  constructor <;> simp [hasRole, initialState]

/-- C9: self-demotion of an Administrator is permitted when another
Administrator remains; any Administrator revocation that would leave zero
Administrators fails with `LastAdminError`; consequently every state
reachable from deployment has at least one Administrator. -/
theorem last_admin_protection :
    (∀ (s : HMSState) (c : Principal), s.paused = false →
       isAdminOrSuper s c = true → c ∈ s.admins →
       s.admins.filter (fun p => p != c) ≠ [] →
       ∃ s', step s (.revokeRole c .admin c) = .ok s' ∧ c ∉ s'.admins)
    ∧ (∀ (s : HMSState) (c t : Principal), s.paused = false →
       isAdminOrSuper s c = true → t ∈ s.admins →
       s.admins.filter (fun p => p != t) = [] →
       step s (.revokeRole c .admin t) = .error .LastAdminError)
    ∧ (∀ (d : Principal) (ops : List Op), (run (initialState d) ops).admins ≠ []) := by
  refine ⟨?_, ?_, ?_⟩
  · intro s c hp hc hm hne
    have hcf : ¬(c ∈ s.admins ∧ s.admins.filter (fun p => p != c) = []) :=
      fun hcc => hne hcc.2
    have hstep : step s (.revokeRole c .admin c) = .ok { s with
        admins := s.admins.filter (fun p => p != c)
        events := s.events ++ [.RoleRevoked .admin c c] } := by
      simp [step, revokeRole, hp, hc, hcf]
      intro _
      rcases List.exists_mem_of_ne_nil _ hne with ⟨x, hx⟩
      have hx' := List.mem_filter.mp hx
      exact ⟨x, hx'.1, by simpa using hx'.2⟩
    refine ⟨_, hstep, ?_⟩
    simp [List.mem_filter]
  · intro s c t hp hc hm hfe
    have hcond : t ∈ s.admins ∧ s.admins.filter (fun p => p != t) = [] := ⟨hm, hfe⟩
    simp [step, revokeRole, hp, hc, hcond]
  · intro d ops
    apply run_admins_ne
    simp [initialState]

/-- C9 (witness): at deployment, the sole Administrator revoking
themselves fails with `LastAdminError`, and after that failed attempt the
Administrator set is still nonempty. -/
theorem last_admin_protection_witness :
    step (initialState 0) (.revokeRole 0 .admin 0) = .error .LastAdminError ∧
    (run (initialState 0) [.revokeRole 0 .admin 0]).admins ≠ [] :=
  ⟨last_admin_protection.2.1 (initialState 0) 0 0 (by decide) (by decide)
     (by decide) (by decide),
   last_admin_protection.2.2 0 [.revokeRole 0 .admin 0]⟩

end HMS


namespace Backend

/-- C10: when creating a medical record on the MongoDB path, if the
database save succeeds but the contract is not configured or the
blockchain `addRecord` call fails (resolved unsuccessfully or threw), the
handler still responds 201 with the created record, whose
`blockchainStored` flag is left unset (false) and whose hash fields are
absent — the operation does not fail as a whole. -/
theorem blockchain_failure_nonfatal (cc : Bool) (bc : BcOutcome) (pf df : Bool)
    (h : cc = false ∨ bc = .failed ∨ bc = .threw) :
    postMedicalRecord true cc bc pf df = .created 201
      { blockchainStored := false, recordHash := none, transactionHash := none } := by
  rcases h with h | h | h
  · subst h; rfl
  · subst h; cases cc <;> rfl
  · subst h; cases cc <;> rfl

/-- C10 (witness): contract configured but the blockchain call resolves
with `success: false`: the record is still created with status 201 and
`blockchainStored` false. -/
theorem blockchain_failure_nonfatal_witness :
    postMedicalRecord true true .failed true true = .created 201
      { blockchainStored := false, recordHash := none, transactionHash := none } :=
  blockchain_failure_nonfatal true .failed true true (Or.inr (Or.inl rfl))

end Backend

